import Mathlib

/-!
Verification of `scripts/build-tokens.js`, the token-documentation build script.

The script reads synth/token records from an external registry, derives a
natural-language description for each synth (`desc`), computes price-freeze
thresholds for inverted synths (`doRounding`), and assembles one markdown
document (`content`) that is written to disk.

Modelling conventions:
* JS numbers that appear in the registry are exact decimals; they are embedded
  as `DecNum` (an integer mantissa over a power of ten).  All executable
  definitions work on `Int`/`Nat`; the rational value `DecNum.val` is used only
  in stated properties.
* JS strings are Lean `String`s; operations that the Lean core implements with
  byte positions (`split`, `toLowerCase`, `startsWith`) are re-implemented
  structurally over `String.data` with the same semantics on the ASCII inputs
  the script handles.
* External collaborators (the numbro formatter, the oracle-address lookup) are
  parameters of the assembler functions.
* A thrown lookup failure aborting the build is embedded as `Option`: `none`
  means the process aborts and the output file is never written.
-/

/-- Lower-cases one ASCII letter; models `String.prototype.toLowerCase` on the
ASCII range (all registry names and tickers are ASCII). -/
def lowerChar (c : Char) : Char :=
  if 'A' ≤ c ∧ c ≤ 'Z' then Char.ofNat (c.toNat + 32) else c

/-- Models the JS `s.toLowerCase()` call for ASCII strings. -/
def toLowerCase (s : String) : String := String.mk (s.data.map lowerChar)

/-- Models JS `Array.prototype.join(sep)`. -/
def joinWith (sep : String) : List String → String
  | [] => ""
  | [a] => a
  | a :: b :: t => a ++ sep ++ joinWith sep (b :: t)

/-- Splits a character list at every occurrence of `sep`; models JS
`String.prototype.split` with a single-character separator. -/
def splitChars (sep : Char) : List Char → List (List Char)
  | [] => [[]]
  | c :: cs =>
    if c = sep then [] :: splitChars sep cs
    else
      match splitChars sep cs with
      | [] => [[c]]
      | g :: gs => (c :: g) :: gs

/-- Models the JS `s.split(sep)` call (single-character separator). -/
def splitString (sep : Char) (s : String) : List String :=
  (splitChars sep s.data).map String.mk

/-- Character for one decimal digit. -/
def digitChar (d : Nat) : Char :=
  if d = 0 then '0' else if d = 1 then '1' else if d = 2 then '2'
  else if d = 3 then '3' else if d = 4 then '4' else if d = 5 then '5'
  else if d = 6 then '6' else if d = 7 then '7' else if d = 8 then '8' else '9'

/-- Fuel-driven decimal rendering of a natural number, most significant digit
first.  Fuel `n + 1` always suffices for input `n`. -/
def natCharsAux : Nat → Nat → List Char
  | 0, _ => []
  | fuel + 1, n =>
    if n < 10 then [digitChar n]
    else natCharsAux fuel (n / 10) ++ [digitChar (n % 10)]

/-- Decimal string of a natural number. -/
def natStr (n : Nat) : String := String.mk (natCharsAux (n + 1) n)

/-- Decimal string of an integer, with a leading minus sign when negative. -/
def intStr (i : Int) : String := (if i < 0 then "-" else "") ++ natStr i.natAbs

/-- Left-pads a string with zeros to length `d`; models how `toFixed` pads the
fractional part. -/
def padZeros (s : String) (d : Nat) : String :=
  String.mk (List.replicate (d - s.length) '0') ++ s

/-- Renders `n / 10 ^ d` (`n : Nat`) as a fixed-point decimal string with
exactly `d` fractional digits, the digit layout of JS `Number.prototype.toFixed`. -/
def renderScaledNat (n d : Nat) : String :=
  if d = 0 then natStr n
  else natStr (n / 10 ^ d) ++ "." ++ padZeros (natStr (n % 10 ^ d)) d

/-- Magnitude part of JS `x.toFixed(d)` applied to the exact rational
`N / 10 ^ E`: the integer nearest `|x| * 10 ^ d`, ties rounded up, computed as
`⌊(|N| * 10 ^ d * 2 + 10 ^ E) / (2 * 10 ^ E)⌋` in natural arithmetic. -/
def magFixed (N : Int) (E d : Nat) : Nat :=
  (N.natAbs * 10 ^ d * 2 + 10 ^ E) / (2 * 10 ^ E)

/-- Models JS `Number.prototype.toFixed(d)` applied to the exact rational
`N / 10 ^ E`: per the ECMAScript algorithm the sign is emitted first and the
magnitude is rounded to the nearest multiple of `10 ^ (-d)`, ties away from
zero, then rendered with exactly `d` fractional digits. -/
def toFixed (N : Int) (E d : Nat) : String :=
  (if N < 0 then "-" else "") ++ renderScaledNat (magFixed N E d) d

/-- The signed scaled integer denoted by the `toFixed` output string: the
output reads as this integer divided by `10 ^ d`. -/
def signedFixed (N : Int) (E d : Nat) : Int :=
  if N < 0 then -(magFixed N E d : Int) else (magFixed N E d : Int)

/-- A JS number that is an exact decimal: the value `m / 10 ^ e`.  Registry
numbers (entry points, limits, index units) are all of this shape. -/
structure DecNum where
  m : Int
  e : Nat

/-- Strips factors of ten from the pair `(m, e)` (value `m / 10 ^ e`) while the
fractional part ends in zero; this is how a trailing-zero decimal collapses in
the canonical JS `Number.prototype.toString` (the number `150.0` prints as
`"150"`). -/
def stripZeros : Int → Nat → Int × Nat
  | m, 0 => (m, 0)
  | m, e + 1 => if m % 10 = 0 then stripZeros (m / 10) e else (m, e + 1)

/-- Number of fractional digits in the canonical decimal string of the number,
i.e. the JS expression `(x.toString().split('.')[1] || '').length`. -/
def DecNum.fracDigits (d : DecNum) : Nat := (stripZeros d.m d.e).2

/-- Numeric value of a `DecNum`. -/
def DecNum.val (d : DecNum) : ℚ := (d.m : ℚ) / 10 ^ d.e

/-- Canonical decimal string of a `DecNum`; models JS
`Number.prototype.toString` (trailing fractional zeros dropped). -/
def DecNum.render (d : DecNum) : String :=
  let p := stripZeros d.m d.e
  if p.2 = 0 then intStr p.1
  else
    (if p.1 < 0 then "-" else "") ++ natStr (p.1.natAbs / 10 ^ p.2) ++ "." ++
      padZeros (natStr (p.1.natAbs % 10 ^ p.2)) p.2

/-- Exact integer numerator of `entry * 2 - limit` over the common denominator
`10 ^ max entry.e limit.e`. -/
def roundingNum (entry limit : DecNum) : Int :=
  entry.m * 2 * 10 ^ (max entry.e limit.e - entry.e) -
    limit.m * 10 ^ (max entry.e limit.e - limit.e)

/-- Translation of `doRounding` (build-tokens.js lines 11-17): computes
`num = entry * 2 - limit` (exactly, as `roundingNum / 10 ^ E`), takes
`decimals` from the fractional digits of `limit.toString()`, and returns
`Number(num).toFixed(decimals)`. -/
def doRounding (entry limit : DecNum) : String :=
  toFixed (roundingNum entry limit) (max entry.e limit.e) limit.fracDigits

/-- The signed scaled integer denoted by the `doRounding` output string (the
string reads as this integer over `10 ^ limit.fracDigits`). -/
def doRoundingValue (entry limit : DecNum) : Int :=
  signedFixed (roundingNum entry limit) (max entry.e limit.e) limit.fracDigits

/-- Number of characters after the first dot of the string; the JS expression
`(s.split('.')[1] || '').length` for strings containing at most one dot. -/
def fracLen : List Char → Nat
  | [] => 0
  | c :: cs => if c = '.' then cs.length else fracLen cs

-- Sanity checks mirroring the worked examples of the specification (section 8).
theorem doRounding_example_int : doRounding ⟨100, 0⟩ ⟨150, 0⟩ = "50" := rfl

theorem doRounding_example_frac : doRounding ⟨45, 1⟩ ⟨225, 2⟩ = "6.75" := rfl

theorem render_drops_trailing_zero : DecNum.render ⟨1500, 1⟩ = "150" := rfl

/-- Inversion parameters of an inverted synth (registry field `inverted`). -/
structure Inversion where
  entryPoint : DecNum
  upperLimit : DecNum
  lowerLimit : DecNum

/-- One component of an index synth (registry field `index`). -/
structure IndexEntry where
  symbol : String
  name : String
  units : DecNum

/-- A synth record as consumed by `desc` (from `snx.getSynths`). -/
structure Synth where
  name : String
  desc : String
  asset : String
  inverted : Option Inversion
  index : Option (List IndexEntry)

/-- The JS expression `synth.desc.replace(/^Inverted /, '')`: drops one leading
`"Inverted "` when present. -/
def stripInverted (s : String) : String :=
  if List.isPrefixOf "Inverted ".data s.data then String.mk (s.data.drop 9) else s

/-- The `underlying` local of `desc` (line 20). -/
def underlyingOf (synth : Synth) : String := stripInverted synth.desc

/-- The `assetSuffix` local of `desc` (line 21). -/
def assetSuffixOf (synth : Synth) : String :=
  if synth.name = underlyingOf synth then "" else " (" ++ synth.asset ++ ")"

/-- The fixed sentence returned for the stable unit `sUSD` (line 23). -/
def stableSentence : String :=
  "Tracks the price of a single US Dollar (USD). This Synth always remains constant at 1."

/-- The sentence built by the inverted branch of `desc` (lines 27-41). -/
def invertedSentence (synth : Synth) (inv : Inversion) : String :=
  "Inversely tracks the price of " ++ underlyingOf synth ++ assetSuffixOf synth ++
    " through price feeds supplied by an oracle. " ++
    "The entry point is \\$" ++ inv.entryPoint.render ++
    " (the approximate market price at time of creation). " ++
    "This Synth freezes when it reaches its upper limit of \\$" ++ inv.upperLimit.render ++
    " (i.e. when " ++ underlyingOf synth ++ "\x27s " ++ "value reaches \\$" ++
    doRounding inv.entryPoint inv.upperLimit ++
    ") or its lower limit of \\$" ++ inv.lowerLimit.render ++
    " (i.e. when " ++ underlyingOf synth ++ "’s value " ++ "reaches \\$" ++
    doRounding inv.entryPoint inv.lowerLimit ++
    "). If it reaches either of its limits and gets frozen, it will no longer be " ++
    "able to be purchased on Synthetix.Exchange, but can still be traded for other Synths at its frozen " ++
    "value. At some point after it has reached either of its limits, it will be substituted for another " ++
    synth.name ++ " with different limits."

/-- One `"<units> of <symbol>[ (<name>)]"` fragment of the index sentence
(line 47). -/
def indexComponent (entry : IndexEntry) : String :=
  entry.units.render ++ " of " ++ entry.symbol ++
    (if entry.name = entry.symbol then "" else " (" ++ entry.name ++ ")")

/-- The sentence built by the index branch of `desc` (lines 43-50). -/
def indexSentence (synth : Synth) (entries : List IndexEntry) : String :=
  "Tracks the price of the index: " ++ underlyingOf synth ++ assetSuffixOf synth ++
    " through price feeds supplied by an oracle. " ++
    "This index is made up of the following assets and weights: " ++
    joinWith ", " (entries.map indexComponent) ++ "."

/-- The generic sentence of the final branch of `desc` (line 52). -/
def plainSentence (synth : Synth) : String :=
  "Tracks the price of " ++ underlyingOf synth ++ assetSuffixOf synth ++
    " through price feeds supplied by an oracle."

/-- Translation of `desc` (build-tokens.js lines 19-54). -/
def desc (synth : Synth) : String :=
  if synth.name = "sUSD" then stableSentence
  else
    match synth.inverted with
    | some inv => invertedSentence synth inv
    | none =>
      match synth.index with
      | some entries => indexSentence synth entries
      | none => plainSentence synth

/-- A token record from `snx.getTokens` as used by the script: the fields read
at lines 60-68 and 135-147. -/
structure Token where
  symbol : String
  desc : String
  asset : String
  address : String
  decimals : Nat
  index : Option (List IndexEntry)
  inverted : Option Inversion
  feed : Option String

/-- An enriched token, the result of
`Object.assign({ name: entry.desc, description }, entry)` (line 66). -/
structure EToken where
  name : String
  description : String
  symbol : String
  asset : String
  address : String
  decimals : Nat
  index : Option (List IndexEntry)
  inverted : Option Inversion
  feed : Option String

/-- The hardcoded SNX description (line 64). -/
def snxDescription : String :=
  "The Synthetix Network Token (SNX) gets staked as collateral to back Synths and entitles stakers to receive fees generated by Synth trades on Synthetix.Exchange."

/-- Enrichment of one token entry (lines 60-67).  For a non-SNX symbol the
matching synth is looked up with `synths.find(s => s.name === entry.symbol)`
and `desc(synth)` is evaluated; when the lookup misses, `desc(undefined)`
throws, aborting the build: that abort is the `none` result. -/
def enrichToken (synths : List Synth) (entry : Token) : Option EToken :=
  if entry.symbol = "SNX" then
    some ⟨entry.desc, snxDescription, entry.symbol, entry.asset, entry.address,
      entry.decimals, entry.index, entry.inverted, entry.feed⟩
  else
    match List.find? (fun s => s.name == entry.symbol) synths with
    | some synth =>
      some ⟨entry.desc, desc synth, entry.symbol, entry.asset, entry.address,
        entry.decimals, entry.index, entry.inverted, entry.feed⟩
    | none => none

/-- Fail-fast map over a list: an exception thrown for any element aborts the
whole `Array.prototype.map`, so one `none` makes the whole result `none`. -/
def optionMap (f : α → Option β) : List α → Option (List β)
  | [] => some []
  | a :: t =>
    match f a with
    | none => none
    | some b =>
      match optionMap f t with
      | none => none
      | some bs => some (b :: bs)

/-- Comparator of the first sort (line 68): ascending by underlying asset
ticker, case-sensitive. -/
def assetLe (a b : EToken) : Prop := a.asset ≤ b.asset

/-- Comparator of the second sort (line 133): ascending by display name,
case-sensitive. -/
def nameLe (a b : EToken) : Prop := a.name ≤ b.name

instance : DecidableRel assetLe := fun a b => inferInstanceAs (Decidable (a.asset ≤ b.asset))

instance : DecidableRel nameLe := fun a b => inferInstanceAs (Decidable (a.name ≤ b.name))

instance : IsTotal EToken assetLe := ⟨fun a b => le_total a.asset b.asset⟩

instance : IsTrans EToken assetLe := ⟨fun _ _ _ h₁ h₂ => le_trans h₁ h₂⟩

instance : IsTotal EToken nameLe := ⟨fun a b => le_total a.name b.name⟩

instance : IsTrans EToken nameLe := ⟨fun _ _ _ h₁ h₂ => le_trans h₁ h₂⟩

/-- The `tokens` list (lines 58-68): enrich every entry, then sort by asset
ticker.  JS `Array.prototype.sort` is a stable sort whose ascending order with
the comparator `a.asset > b.asset ? 1 : -1` is `assetLe`; it is embedded as the
stable `List.insertionSort`. -/
def tokensOf (synths : List Synth) (entries : List Token) : Option (List EToken) :=
  (optionMap (enrichToken synths) entries).map (List.insertionSort assetLe)

/-- The re-sort by display name inside the `content` template (line 133). -/
def orderedTokens (l : List EToken) : List EToken := List.insertionSort nameLe l

/-- Anchor derivation for cross-links,
`(name.split(' ').slice(1).join('-') + '-s' + asset).toLowerCase()` (line 77). -/
def getLinkToAsset (name asset : String) : String :=
  toLowerCase (joinWith "-" ((splitString ' ' name).drop 1) ++ "-s" ++ asset)

/-- Translation of `addInverseParameters` (lines 79-88); `fmt` stands for the
external numbro formatter `format`. -/
def addInverseParameters (fmt : DecNum → String) (inverted : Option Inversion)
    (asset name : String) : String :=
  match inverted with
  | none => ""
  | some inv =>
    "**Inverse of**: [s" ++ asset ++ "](#" ++ getLinkToAsset name asset ++ ")\n\n" ++
      "| Entry Point | Upper Limit | Lower Limit |\n" ++ "| - | - | - |\n" ++
      "| $" ++ fmt inv.entryPoint ++ " | $" ++ fmt inv.upperLimit ++ " | $" ++
      fmt inv.lowerLimit ++ "|\n\n"

/-- The `header` local of `addIndexParameters` (lines 92-95). -/
def indexHeader (asset name : String) : String :=
  "**Index of**: [s" ++ asset ++ "](#" ++ getLinkToAsset name asset ++ ")\n\n"

/-- One row of the index component table (line 103). -/
def indexTableRow (fmt : DecNum → String) (entry : IndexEntry) : String :=
  "| " ++ entry.name ++ " | " ++ entry.symbol ++ " | " ++ fmt entry.units ++ " |\n"

/-- The component table of a (non-inverted) index synth (lines 100-105). -/
def indexTable (fmt : DecNum → String) (entries : List IndexEntry) : String :=
  "| Token | Symbol | Units |\n| - | - | - |\n" ++
    joinWith "" (entries.map (indexTableRow fmt)) ++ "\n"

/-- Translation of `addIndexParameters` (lines 90-106). -/
def addIndexParameters (fmt : DecNum → String) (index : Option (List IndexEntry))
    (inverted : Option Inversion) (asset name : String) : String :=
  match index with
  | none => ""
  | some entries =>
    if inverted.isSome then indexHeader asset name
    else indexHeader asset name ++ indexTable fmt entries

/-- The centralized-oracle block (lines 111-114); `snxOracle` stands for the
external `snx.getUsers({ network, user: 'oracle' }).address` lookup. -/
def centralizedOracleBlock (snxOracle : String) : String :=
  "**Price Feed**: Synthetix (centralized)\n\n- Oracle: [" ++ snxOracle ++
    "](https://etherscan.io/address/" ++ snxOracle ++ ")" ++
    "\n- Contract: [ExchangeRates](https://contracts.synthetix.io/ExchangeRates)\n\n"

/-- The feed-browser URL slug, `linkMap[asset] || asset.toLowerCase() + '-usd'`
(lines 116-117). -/
def feedSlug (asset : String) : String :=
  if asset = "FTSE100" then "ftse-gbp"
  else if asset = "NIKKEI225" then "n225-jpy"
  else toLowerCase asset ++ "-usd"

/-- The decentralized-oracle block (lines 118-121). -/
def decentralizedOracleBlock (slug feed : String) : String :=
  "**Price Feed**: Chainlink (decentralized)\n\n- Oracles: [Network overview](https://feeds.chain.link/" ++
    slug ++ ")" ++ "\n- Contract: [Aggregator](https://etherscan.io/address/" ++ feed ++ ")\n\n"

/-- Translation of `addOracleParameters` (lines 108-122). -/
def addOracleParameters (snxOracle asset : String) (feed : Option String) : String :=
  match feed with
  | none => centralizedOracleBlock snxOracle
  | some f => decentralizedOracleBlock (feedSlug asset) f

/-- The hardcoded SIP-34 suspension notice for MKR (lines 138-140). -/
def suspensionNotice (asset : String) : String :=
  if asset = "MKR" then
    "!!! warning \"Suspended\"\n\n    MKR has been suspended due to [SIP-34](https://sips.synthetix.io/sips/sip-34)\n\n"
  else ""

/-- One markdown section of the document (lines 135-147). -/
def renderSection (fmt : DecNum → String) (snxOracle : String) (t : EToken) : String :=
  "## " ++ t.name ++ " (" ++ t.symbol ++ ")\n\n" ++
    suspensionNotice t.asset ++
    "**Contract:** [" ++ t.address ++ "](https://etherscan.io/token/" ++ t.address ++ ")\n\n" ++
    "**Decimals:** " ++ natStr t.decimals ++ "\n\n" ++
    "**Price:** [" ++ t.symbol ++ " on synthetix.exchange](https://synthetix.exchange/#/synths/" ++
    t.symbol ++ ")\n\n" ++
    addOracleParameters snxOracle t.asset t.feed ++
    addInverseParameters fmt t.inverted t.asset t.name ++
    addIndexParameters fmt t.index t.inverted t.asset t.name ++
    ">" ++ t.description

/-- The fixed document header of the `content` template (lines 124-131). -/
def docHeader : String :=
  "\n# Token List\n\n!!! Tip \"Decentralizing the remaining price feeds\"\n\n    We\x27re in the process of migrating all price feeds to Chainlink\x27s decentralized network.\n    This change is coming with [SIP-36](https://sips.synthetix.io/sips/sip-36).\n\n"

/-- The fully assembled `content` string (lines 124-151): header, then the
per-asset sections sorted by display name joined by blank lines. -/
def contentDoc (fmt : DecNum → String) (snxOracle : String) (toks : List EToken) : String :=
  docHeader ++ joinWith "\n\n" ((orderedTokens toks).map (renderSection fmt snxOracle)) ++ "\n\n"

/-- The whole build: `none` when the build aborts before the file write
(line 152), `some content` when the document is assembled and written. -/
def contentOf (fmt : DecNum → String) (snxOracle : String) (synths : List Synth)
    (entries : List Token) : Option String :=
  (tokensOf synths entries).map (contentDoc fmt snxOracle)

/-- Anchor derivation exactly as the claim words it, for comparison with
`getLinkToAsset`: drop the first space-delimited token of the display name,
lower-case the remainder, append `-s<asset>`, join with hyphens. -/
def claimAnchor (name asset : String) : String :=
  joinWith "-" (((splitString ' ' name).drop 1).map toLowerCase) ++ "-s" ++ asset

/-- A stand-in for the external numbro formatter, used to instantiate the
assembler at concrete inputs. -/
def constFormat : DecNum → String := fun _ => "0"

theorem digitChar_ne_dot (d : Nat) : digitChar d ≠ '.' := by
  unfold digitChar
  repeat' split
  all_goals decide

theorem dot_not_mem_natCharsAux (fuel : Nat) : ∀ n, '.' ∉ natCharsAux fuel n := by
  induction fuel with
  | zero => intro n; simp [natCharsAux]
  | succ fuel ih =>
    intro n
    unfold natCharsAux
    split
    · intro h
      rw [List.mem_singleton] at h
      exact digitChar_ne_dot n h.symm
    · intro h
      rcases List.mem_append.mp h with h | h
      · exact ih _ h
      · rw [List.mem_singleton] at h
        exact digitChar_ne_dot _ h.symm

theorem natCharsAux_length_le (fuel : Nat) :
    ∀ n k, 1 ≤ k → n < 10 ^ k → (natCharsAux fuel n).length ≤ k := by
  induction fuel with
  | zero => intro n k _ _; simp [natCharsAux]
  | succ fuel ih =>
    intro n k hk hn
    unfold natCharsAux
    split
    · simpa using hk
    · rename_i hge
      obtain ⟨k', rfl⟩ : ∃ k', k = k' + 1 := ⟨k - 1, by omega⟩
      rcases Nat.eq_zero_or_pos k' with rfl | hk'
      · exact absurd (by simpa using hn) hge
      · have hdiv : n / 10 < 10 ^ k' := by
          rw [Nat.div_lt_iff_lt_mul (by norm_num : (0:ℕ) < 10)]
          calc n < 10 ^ (k' + 1) := hn
            _ = 10 ^ k' * 10 := by ring
        have hlen := ih (n / 10) k' hk' hdiv
        rw [List.length_append, List.length_singleton]
        omega

theorem fracLen_of_not_mem (xs : List Char) (h : '.' ∉ xs) : fracLen xs = 0 := by
  induction xs with
  | nil => rfl
  | cons c cs ih =>
    have h1 : ¬ c = '.' := fun hc => h (by rw [hc]; exact List.mem_cons_self _ _)
    have h2 : '.' ∉ cs := fun hm => h (List.mem_cons_of_mem _ hm)
    simp [fracLen, h1, ih h2]

theorem fracLen_append_dot (xs ys : List Char) (h : '.' ∉ xs) :
    fracLen (xs ++ '.' :: ys) = ys.length := by
  induction xs with
  | nil => simp [fracLen]
  | cons c cs ih =>
    have h1 : ¬ c = '.' := fun hc => h (by rw [hc]; exact List.mem_cons_self _ _)
    have h2 : '.' ∉ cs := fun hm => h (List.mem_cons_of_mem _ hm)
    simp [fracLen, h1, ih h2]

theorem padZeros_length (s : String) (d : Nat) :
    (padZeros s d).length = (d - s.length) + s.length := by
  show ((padZeros s d).data).length = _
  rw [padZeros, String.data_append, List.length_append,
    show (String.mk (List.replicate (d - s.length) '0')).data =
      List.replicate (d - s.length) '0' from rfl,
    List.length_replicate]
  rfl

theorem fracLen_toFixed (N : Int) (E d : Nat) : fracLen (toFixed N E d).data = d := by
  have hsign : '.' ∉ (if N < 0 then "-" else "").data := by
    split <;> decide
  by_cases hd : d = 0
  · subst hd
    rw [toFixed, renderScaledNat, if_pos rfl, String.data_append]
    apply fracLen_of_not_mem
    intro h
    rcases List.mem_append.mp h with h | h
    · exact absurd h hsign
    · exact dot_not_mem_natCharsAux _ _ h
  · rw [toFixed, renderScaledNat, if_neg hd, String.data_append, String.data_append,
      String.data_append,
      show (("." : String)).data = ['.'] from rfl,
      List.append_assoc ((natStr (magFixed N E d / 10 ^ d)).data) ['.'] _,
      List.singleton_append, ← List.append_assoc]
    have hpre : '.' ∉ (if N < 0 then "-" else "").data ++ (natStr (magFixed N E d / 10 ^ d)).data := by
      intro h
      rcases List.mem_append.mp h with h | h
      · exact absurd h hsign
      · exact dot_not_mem_natCharsAux _ _ h
    rw [fracLen_append_dot _ _ hpre]
    show (padZeros (natStr (magFixed N E d % 10 ^ d)) d).length = d
    rw [padZeros_length]
    have hlt : magFixed N E d % 10 ^ d < 10 ^ d := Nat.mod_lt _ (pow_pos (by norm_num) d)
    have hle : (natStr (magFixed N E d % 10 ^ d)).length ≤ d := by
      show (natCharsAux _ _).length ≤ d
      exact natCharsAux_length_le _ _ _ (by omega) hlt
    omega

theorem fracLen_doRounding (entry limit : DecNum) :
    fracLen (doRounding entry limit).data = limit.fracDigits :=
  fracLen_toFixed _ _ _

theorem stripZeros_val (e : Nat) : ∀ m : Int,
    (((stripZeros m e).1 : ℚ)) / 10 ^ (stripZeros m e).2 = (m : ℚ) / 10 ^ e := by
  induction e with
  | zero => intro m; rfl
  | succ e ih =>
    intro m
    by_cases h : m % 10 = 0
    · have hdvd : (10 : ℤ) ∣ m := Int.dvd_of_emod_eq_zero h
      obtain ⟨c, rfl⟩ := hdvd
      rw [show stripZeros (10 * c) (e + 1) = stripZeros ((10 * c) / 10) e from by
        simp [stripZeros, h]]
      rw [Int.mul_ediv_cancel_left c (by norm_num), ih c]
      push_cast
      rw [pow_succ]
      rw [div_mul_eq_div_div_swap]
      rw [mul_comm (10 : ℚ) (c : ℚ), mul_div_assoc]
      norm_num
    · simp [stripZeros, h]

theorem val_mul_pow_fracDigits (d : DecNum) :
    d.val * 10 ^ d.fracDigits = ((stripZeros d.m d.e).1 : ℚ) := by
  have h := stripZeros_val d.e d.m
  rw [DecNum.val, DecNum.fracDigits, ← h, div_mul_cancel₀]
  exact pow_ne_zero _ (by norm_num)

theorem roundingNum_val (entry limit : DecNum) :
    (roundingNum entry limit : ℚ) =
      (entry.val * 2 - limit.val) * 10 ^ max entry.e limit.e := by
  have e1 : (10 : ℚ) ^ (max entry.e limit.e - entry.e) * 10 ^ entry.e =
      10 ^ max entry.e limit.e := by
    rw [← pow_add, Nat.sub_add_cancel (le_max_left _ _)]
  have e2 : (10 : ℚ) ^ (max entry.e limit.e - limit.e) * 10 ^ limit.e =
      10 ^ max entry.e limit.e := by
    rw [← pow_add, Nat.sub_add_cancel (le_max_right _ _)]
  have hne1 : ((10 : ℚ) ^ entry.e) ≠ 0 := pow_ne_zero _ (by norm_num)
  have hne2 : ((10 : ℚ) ^ limit.e) ≠ 0 := pow_ne_zero _ (by norm_num)
  rw [roundingNum, DecNum.val, DecNum.val]
  push_cast
  rw [sub_mul]
  nth_rewrite 2 [← e2]
  nth_rewrite 1 [← e1]
  field_simp
  ring

theorem signedFixed_eq (N K : Int) (E d : Nat) (h : N * 10 ^ d = K * 10 ^ E) :
    signedFixed N E d = K := by
  have hmag : magFixed N E d = K.natAbs := by
    have habs : N.natAbs * 10 ^ d = K.natAbs * 10 ^ E := by
      have h2 := congrArg Int.natAbs h
      simpa [Int.natAbs_mul, Int.natAbs_pow] using h2
    have hE : 0 < 10 ^ E := pow_pos (by norm_num) E
    rw [magFixed, habs,
      show K.natAbs * 10 ^ E * 2 + 10 ^ E = 10 ^ E * (K.natAbs * 2 + 1) from by ring,
      show 2 * 10 ^ E = 10 ^ E * 2 from by ring,
      Nat.mul_div_mul_left _ _ hE]
    omega
  have hd : (0 : ℤ) < 10 ^ d := pow_pos (by norm_num) d
  have hEz : (0 : ℤ) < 10 ^ E := pow_pos (by norm_num) E
  rw [signedFixed, hmag]
  by_cases hN : N < 0
  · have hKneg : K < 0 := by
      by_contra hK
      have h1 : N * 10 ^ d < 0 := mul_neg_of_neg_of_pos hN hd
      have h2 : 0 ≤ K * 10 ^ E := mul_nonneg (le_of_not_lt hK) (le_of_lt hEz)
      omega
    rw [if_pos hN]
    omega
  · have hKpos : 0 ≤ K := by
      by_contra hK
      have h1 : 0 ≤ N * 10 ^ d := mul_nonneg (le_of_not_lt hN) (le_of_lt hd)
      have h2 : K * 10 ^ E < 0 := mul_neg_of_neg_of_pos (lt_of_not_le hK) hEz
      omega
    rw [if_neg hN]
    omega

theorem doRoundingValue_eq (entry limit : DecNum)
    (h : entry.fracDigits ≤ limit.fracDigits) :
    (doRoundingValue entry limit : ℚ) =
      (entry.val * 2 - limit.val) * 10 ^ limit.fracDigits := by
  have hKval : ((2 * (stripZeros entry.m entry.e).1 *
        10 ^ (limit.fracDigits - entry.fracDigits) -
        (stripZeros limit.m limit.e).1 : ℤ) : ℚ) =
      (entry.val * 2 - limit.val) * 10 ^ limit.fracDigits := by
    have he := val_mul_pow_fracDigits entry
    have hl := val_mul_pow_fracDigits limit
    have hsplit : (10 : ℚ) ^ entry.fracDigits *
        10 ^ (limit.fracDigits - entry.fracDigits) = 10 ^ limit.fracDigits := by
      rw [← pow_add, Nat.add_sub_cancel' h]
    push_cast
    rw [← he, ← hl, sub_mul, ← hsplit]
    ring
  have hNK : roundingNum entry limit * (10 : ℤ) ^ limit.fracDigits =
      (2 * (stripZeros entry.m entry.e).1 *
        10 ^ (limit.fracDigits - entry.fracDigits) -
        (stripZeros limit.m limit.e).1) * 10 ^ max entry.e limit.e := by
    have hq : ((roundingNum entry limit * (10 : ℤ) ^ limit.fracDigits : ℤ) : ℚ) =
        (((2 * (stripZeros entry.m entry.e).1 *
          10 ^ (limit.fracDigits - entry.fracDigits) -
          (stripZeros limit.m limit.e).1) * 10 ^ max entry.e limit.e : ℤ) : ℚ) := by
      push_cast
      rw [show ((roundingNum entry limit : ℤ) : ℚ) * (10 : ℚ) ^ limit.fracDigits =
          ((entry.val * 2 - limit.val) * 10 ^ max entry.e limit.e) *
            (10 : ℚ) ^ limit.fracDigits from by rw [roundingNum_val]]
      rw [show ((2 * ((stripZeros entry.m entry.e).1 : ℚ) *
          10 ^ (limit.fracDigits - entry.fracDigits) -
          ((stripZeros limit.m limit.e).1 : ℚ))) =
          (entry.val * 2 - limit.val) * 10 ^ limit.fracDigits from by
        have hc := hKval
        push_cast at hc
        exact hc]
      ring
    exact_mod_cast hq
  rw [doRoundingValue, signedFixed_eq _ _ _ _ hNK]
  exact hKval

/-- Claim C1 (amended): `doRounding` renders `entryPoint * 2 - limit` with
exactly as many fractional digits as `limit`'s canonical decimal
representation; when the entry point has no more fractional digits than the
limit, the rendered value is exactly `entryPoint * 2 - limit`, which is the
reflection of the limit about the entry point. -/
theorem doRounding_exact (entry limit : DecNum)
    (h : entry.fracDigits ≤ limit.fracDigits) :
    fracLen (doRounding entry limit).data = limit.fracDigits ∧
    (doRoundingValue entry limit : ℚ) =
      (entry.val * 2 - limit.val) * 10 ^ limit.fracDigits ∧
    entry.val - (entry.val * 2 - limit.val) = limit.val - entry.val :=
  ⟨fracLen_toFixed _ _ _, doRoundingValue_eq entry limit h, by ring⟩

/-- Witness for `doRounding_exact` at the specification's worked example
`entryPoint = 4.5`, `limit = 2.25`. -/
theorem doRounding_exact_witness :
    (DecNum.mk 45 1).fracDigits ≤ (DecNum.mk 225 2).fracDigits ∧
    (fracLen (doRounding (DecNum.mk 45 1) (DecNum.mk 225 2)).data =
        (DecNum.mk 225 2).fracDigits ∧
      (doRoundingValue (DecNum.mk 45 1) (DecNum.mk 225 2) : ℚ) =
        ((DecNum.mk 45 1).val * 2 - (DecNum.mk 225 2).val) *
          10 ^ (DecNum.mk 225 2).fracDigits ∧
      (DecNum.mk 45 1).val - ((DecNum.mk 45 1).val * 2 - (DecNum.mk 225 2).val) =
        (DecNum.mk 225 2).val - (DecNum.mk 45 1).val) :=
  ⟨by decide, doRounding_exact _ _ (by decide)⟩

/-- Counterexample to claim C1 as stated: the registry number `150.0` is the
number `150`, whose canonical decimal string carries no fractional digit, so
`doRounding(100, 150.0)` is `"50"` with zero fractional digits, not one. -/
theorem doRounding_padding_counterexample :
    DecNum.val ⟨1500, 1⟩ = 150 ∧
    doRounding ⟨100, 0⟩ ⟨1500, 1⟩ = "50" ∧
    fracLen (doRounding ⟨100, 0⟩ ⟨1500, 1⟩).data ≠ 1 := by
  refine ⟨?_, rfl, by decide⟩
  rw [DecNum.val]
  norm_num

theorem string_ne_of_data_take (s t : String) (n : Nat)
    (h : s.data.take n ≠ t.data.take n) : s ≠ t :=
  fun he => h (by rw [he])

theorem invertedSentence_take_one (s : Synth) (inv : Inversion) :
    (invertedSentence s inv).data.take 1 = ['I'] := by
  rw [invertedSentence]
  simp only [String.data_append, List.append_assoc]
  rw [List.take_append_of_le_length (by decide)]
  decide

theorem indexSentence_take_one (s : Synth) (entries : List IndexEntry) :
    (indexSentence s entries).data.take 1 = ['T'] := by
  rw [indexSentence]
  simp only [String.data_append, List.append_assoc]
  rw [List.take_append_of_le_length (by decide)]
  decide

/-- Claim C2: a synth named `sUSD` always gets the fixed constant-value
sentence, whatever its other fields hold. -/
theorem desc_sUSD (d a : String) (inv : Option Inversion)
    (idx : Option (List IndexEntry)) :
    desc ⟨"sUSD", d, a, inv, idx⟩ =
      "Tracks the price of a single US Dollar (USD). This Synth always remains constant at 1." := by
  simp [desc, stableSentence]

/-- Claim C3: the four describer variants are selected exhaustively and
mutually exclusively in priority order (stable, inverted, index, plain); in
particular a non-sUSD record carrying both inversion and index data gets the
inverted sentence, which is never the index sentence. -/
theorem desc_priority (s : Synth) :
    ((s.name = "sUSD" ∧ desc s = stableSentence) ∨
      (s.name ≠ "sUSD" ∧ ∃ inv, s.inverted = some inv ∧ desc s = invertedSentence s inv) ∨
      (s.name ≠ "sUSD" ∧ s.inverted = none ∧
        ∃ es, s.index = some es ∧ desc s = indexSentence s es) ∨
      (s.name ≠ "sUSD" ∧ s.inverted = none ∧ s.index = none ∧ desc s = plainSentence s)) ∧
    (∀ inv es, s.name ≠ "sUSD" → s.inverted = some inv → s.index = some es →
      desc s = invertedSentence s inv ∧ invertedSentence s inv ≠ indexSentence s es) := by
  constructor
  · by_cases hn : s.name = "sUSD"
    · exact Or.inl ⟨hn, by simp [desc, hn]⟩
    · cases hinv : s.inverted with
      | some inv => exact Or.inr (Or.inl ⟨hn, inv, rfl, by simp [desc, hn, hinv]⟩)
      | none =>
        cases hidx : s.index with
        | some es =>
          exact Or.inr (Or.inr (Or.inl ⟨hn, rfl, es, rfl, by simp [desc, hn, hinv, hidx]⟩))
        | none => exact Or.inr (Or.inr (Or.inr ⟨hn, rfl, rfl, by simp [desc, hn, hinv, hidx]⟩))
  · intro inv es hn hinv _
    refine ⟨by simp [desc, hn, hinv], ?_⟩
    apply string_ne_of_data_take _ _ 1
    rw [invertedSentence_take_one, indexSentence_take_one]
    decide

/-- Witness for `desc_priority` at a record carrying both inversion and index
data. -/
theorem desc_priority_witness :
    desc ⟨"iDEFI", "Inverted DEFI Index", "DEFI",
        some ⟨⟨1000, 0⟩, ⟨1500, 0⟩, ⟨500, 0⟩⟩, some [⟨"COMP", "Compound", ⟨1, 0⟩⟩]⟩ =
      invertedSentence
        ⟨"iDEFI", "Inverted DEFI Index", "DEFI",
          some ⟨⟨1000, 0⟩, ⟨1500, 0⟩, ⟨500, 0⟩⟩, some [⟨"COMP", "Compound", ⟨1, 0⟩⟩]⟩
        ⟨⟨1000, 0⟩, ⟨1500, 0⟩, ⟨500, 0⟩⟩ ∧
    invertedSentence
        ⟨"iDEFI", "Inverted DEFI Index", "DEFI",
          some ⟨⟨1000, 0⟩, ⟨1500, 0⟩, ⟨500, 0⟩⟩, some [⟨"COMP", "Compound", ⟨1, 0⟩⟩]⟩
        ⟨⟨1000, 0⟩, ⟨1500, 0⟩, ⟨500, 0⟩⟩ ≠
      indexSentence
        ⟨"iDEFI", "Inverted DEFI Index", "DEFI",
          some ⟨⟨1000, 0⟩, ⟨1500, 0⟩, ⟨500, 0⟩⟩, some [⟨"COMP", "Compound", ⟨1, 0⟩⟩]⟩
        [⟨"COMP", "Compound", ⟨1, 0⟩⟩] :=
  (desc_priority _).2 _ _ (by decide) rfl rfl

/-- Claim C4: a non-sUSD, non-inverted, non-index synth gets the generic
sentence, with the underlying taken from the record's description stripped of
a leading "Inverted " and the asset suffix present exactly when the record's
name differs from the underlying. -/
theorem desc_plain (name d a : String) (h : name ≠ "sUSD") :
    desc ⟨name, d, a, none, none⟩ =
      "Tracks the price of " ++ stripInverted d ++
        (if name = stripInverted d then "" else " (" ++ a ++ ")") ++
        " through price feeds supplied by an oracle." := by
  simp [desc, h, plainSentence, underlyingOf, assetSuffixOf]

/-- Witness for `desc_plain`: the spec's ETH-style scenario. -/
theorem desc_plain_witness :
    ("sETH" : String) ≠ "sUSD" ∧
    desc ⟨"sETH", "Ether", "ETH", none, none⟩ =
      "Tracks the price of " ++ stripInverted "Ether" ++
        (if "sETH" = stripInverted "Ether" then "" else " (" ++ "ETH" ++ ")") ++
        " through price feeds supplied by an oracle." :=
  ⟨by decide, desc_plain _ _ _ (by decide)⟩

theorem append_ne_empty_left (a b : String) (h : a ≠ "") : a ++ b ≠ "" := by
  intro he
  apply h
  have hd : a.data ++ b.data = [] := by
    have h2 := congrArg String.data he
    rwa [String.data_append] at h2
  have ha : a.data = [] := (List.append_eq_nil.mp hd).1
  cases a with
  | mk l =>
    have hl : l = [] := ha
    rw [hl]

/-- Claim C5: the index block of a rendered section is present exactly when the
record carries an index composition; when the record is also inverted only the
"index of" link line is rendered, otherwise the link line plus the component
table. -/
theorem addIndexParameters_spec (fmt : DecNum → String) (asset name : String) :
    (∀ inverted, addIndexParameters fmt none inverted asset name = "") ∧
    (∀ entries inverted, addIndexParameters fmt (some entries) inverted asset name ≠ "") ∧
    (∀ entries inv, addIndexParameters fmt (some entries) (some inv) asset name =
      indexHeader asset name) ∧
    (∀ entries, addIndexParameters fmt (some entries) none asset name =
      indexHeader asset name ++ indexTable fmt entries) := by
  have hheader : indexHeader asset name ≠ "" := by
    rw [indexHeader]
    apply append_ne_empty_left
    apply append_ne_empty_left
    apply append_ne_empty_left
    apply append_ne_empty_left
    decide
  refine ⟨fun _ => rfl, ?_, fun _ _ => rfl, fun _ => rfl⟩
  intro entries inverted
  cases inverted with
  | none =>
    show indexHeader asset name ++ indexTable fmt entries ≠ ""
    exact append_ne_empty_left _ _ hheader
  | some inv =>
    show indexHeader asset name ≠ ""
    exact hheader

theorem centralizedOracleBlock_take (snxOracle : String) :
    (centralizedOracleBlock snxOracle).data.take 17 = "**Price Feed**: S".data := by
  rw [centralizedOracleBlock]
  simp only [String.data_append, List.append_assoc]
  rw [List.take_append_of_le_length (by decide)]
  decide

theorem decentralizedOracleBlock_take (slug feed : String) :
    (decentralizedOracleBlock slug feed).data.take 17 = "**Price Feed**: C".data := by
  rw [decentralizedOracleBlock]
  simp only [String.data_append, List.append_assoc]
  rw [List.take_append_of_le_length (by decide)]
  decide

/-- Claim C6: the oracle block is the fixed centralized block naming the
operator address exactly when no feed address is present; with a feed the
decentralized block is rendered, whose slug is special-cased for precisely
FTSE100 and NIKKEI225 and is `<lowercased-asset>-usd` otherwise. -/
theorem addOracleParameters_spec (snxOracle asset : String) :
    (addOracleParameters snxOracle asset none = centralizedOracleBlock snxOracle) ∧
    (∀ feed, addOracleParameters snxOracle asset (some feed) =
      decentralizedOracleBlock (feedSlug asset) feed) ∧
    feedSlug "FTSE100" = "ftse-gbp" ∧
    feedSlug "NIKKEI225" = "n225-jpy" ∧
    (asset ≠ "FTSE100" → asset ≠ "NIKKEI225" →
      feedSlug asset = toLowerCase asset ++ "-usd") ∧
    (∀ feed, addOracleParameters snxOracle asset (some feed) ≠
      centralizedOracleBlock snxOracle) := by
  refine ⟨rfl, fun _ => rfl, rfl, rfl, ?_, ?_⟩
  · intro h1 h2
    simp [feedSlug, h1, h2]
  · intro feed
    show decentralizedOracleBlock (feedSlug asset) feed ≠ centralizedOracleBlock snxOracle
    apply string_ne_of_data_take _ _ 17
    rw [decentralizedOracleBlock_take, centralizedOracleBlock_take]
    decide

/-- Witness for `addOracleParameters_spec` at a non-special asset. -/
theorem addOracleParameters_spec_witness :
    (("ETH" : String) ≠ "FTSE100" ∧ ("ETH" : String) ≠ "NIKKEI225") ∧
    feedSlug "ETH" = toLowerCase "ETH" ++ "-usd" :=
  ⟨⟨by decide, by decide⟩,
    (addOracleParameters_spec "0xoracle" "ETH").2.2.2.2.1 (by decide) (by decide)⟩

theorem toLowerCase_append (a b : String) :
    toLowerCase (a ++ b) = toLowerCase a ++ toLowerCase b := by
  cases a with
  | mk l1 =>
    cases b with
    | mk l2 =>
      show String.mk (List.map lowerChar (l1 ++ l2)) =
        String.mk (List.map lowerChar l1 ++ List.map lowerChar l2)
      rw [List.map_append]

theorem toLowerCase_joinWith (l : List String) :
    toLowerCase (joinWith "-" l) = joinWith "-" (l.map toLowerCase) := by
  induction l with
  | nil => rfl
  | cons a t ih =>
    cases t with
    | nil => rfl
    | cons b t' =>
      show toLowerCase (a ++ "-" ++ joinWith "-" (b :: t')) = _
      rw [toLowerCase_append, toLowerCase_append, ih]
      rfl

/-- Claim C7 (amended): the anchor drops the first space-delimited token of the
display name, joins the remainder with hyphens, appends `-s<asset>`, and
lower-cases the whole string, so the remainder tokens AND the asset ticker are
lower-cased. -/
theorem getLinkToAsset_amended (name asset : String) :
    getLinkToAsset name asset =
      joinWith "-" (((splitString ' ' name).drop 1).map toLowerCase) ++ "-s" ++
        toLowerCase asset := by
  rw [getLinkToAsset, toLowerCase_append, toLowerCase_append, toLowerCase_joinWith]
  rfl

/-- Counterexample to claim C7 as stated: with display name "Synth Bitcoin"
and asset "BTC" the code yields "bitcoin-sbtc", while lower-casing only the
remainder and then appending `-s<asset>` (the claim's derivation, `claimAnchor`)
would yield "bitcoin-sBTC". -/
theorem getLinkToAsset_counterexample :
    getLinkToAsset "Synth Bitcoin" "BTC" = "bitcoin-sbtc" ∧
    claimAnchor "Synth Bitcoin" "BTC" = "bitcoin-sBTC" ∧
    getLinkToAsset "Synth Bitcoin" "BTC" ≠ claimAnchor "Synth Bitcoin" "BTC" :=
  ⟨rfl, rfl, by decide⟩

/-- Claim C8: the assembled document renders its sections in ascending
case-sensitive display-name order, and pre-sorting by asset ticker does not
change the resulting name sequence. -/
theorem contentDoc_sorted_by_name (fmt : DecNum → String) (snxOracle : String)
    (l : List EToken) :
    contentDoc fmt snxOracle l =
      docHeader ++
        joinWith "\n\n" ((orderedTokens l).map (renderSection fmt snxOracle)) ++ "\n\n" ∧
    List.Sorted nameLe (orderedTokens l) ∧
    (orderedTokens (List.insertionSort assetLe l)).map EToken.name =
      (orderedTokens l).map EToken.name := by
  haveI : IsAntisymm String (· ≤ ·) := ⟨fun a b h1 h2 => le_antisymm h1 h2⟩
  have key : ∀ L : List EToken, List.Sorted nameLe L →
      List.Sorted (· ≤ ·) (L.map EToken.name) := by
    intro L hL
    unfold List.Sorted at hL ⊢
    rw [List.pairwise_map]
    exact hL
  refine ⟨rfl, List.sorted_insertionSort nameLe l, ?_⟩
  have p : ((orderedTokens (List.insertionSort assetLe l)).map EToken.name).Perm
      ((orderedTokens l).map EToken.name) := by
    apply List.Perm.map
    exact ((List.perm_insertionSort nameLe _).trans
      (List.perm_insertionSort assetLe l)).trans (List.perm_insertionSort nameLe l).symm
  exact List.eq_of_perm_of_sorted p
    (key _ (List.sorted_insertionSort nameLe _))
    (key _ (List.sorted_insertionSort nameLe l))

theorem optionMap_eq_none (f : α → Option β) (l : List α) (a : α)
    (ha : a ∈ l) (hf : f a = none) : optionMap f l = none := by
  induction l with
  | nil => cases ha
  | cons b t ih =>
    rcases List.mem_cons.mp ha with rfl | ha'
    · rw [optionMap, hf]
    · rw [optionMap]
      cases hb : f b with
      | none => rfl
      | some v => rw [ih ha']

/-- Claim C9 (amended): an input containing a non-SNX token whose symbol has no
matching synth entry aborts the build during description generation, before
the output write happens, so no document (not even a partial one) is produced. -/
theorem build_aborts_on_unmatched (fmt : DecNum → String) (snxOracle : String)
    (synths : List Synth) (entries : List Token)
    (h : ∃ e ∈ entries, e.symbol ≠ "SNX" ∧
      List.find? (fun s => s.name == e.symbol) synths = none) :
    contentOf fmt snxOracle synths entries = none := by
  obtain ⟨e, he, hsnx, hfind⟩ := h
  have henrich : enrichToken synths e = none := by
    rw [enrichToken, if_neg hsnx, hfind]
  rw [contentOf, tokensOf, optionMap_eq_none (enrichToken synths) entries e he henrich]
  rfl

/-- Witness for `build_aborts_on_unmatched`: one plain token, empty registry. -/
theorem build_aborts_on_unmatched_witness :
    (∃ e ∈ [Token.mk "sETH" "Synth Ether" "ETH" "0xeth" 18 none none none],
      e.symbol ≠ "SNX" ∧
        List.find? (fun s => s.name == e.symbol) ([] : List Synth) = none) ∧
    contentOf constFormat "0xoracle" []
      [Token.mk "sETH" "Synth Ether" "ETH" "0xeth" 18 none none none] = none :=
  ⟨⟨_, List.mem_singleton_self _, by decide, rfl⟩,
    build_aborts_on_unmatched _ _ _ _ ⟨_, List.mem_singleton_self _, by decide, rfl⟩⟩

/-- Counterexample to claim C9 as stated: a token whose symbol has no matching
synth entry does not always abort — an SNX token with no matching synth entry
still builds, with the hardcoded SNX description. -/
theorem unmatched_snx_counterexample :
    List.find? (fun s => s.name == "SNX") ([] : List Synth) = none ∧
    tokensOf []
        [Token.mk "SNX" "Synthetix Network Token" "SNX" "0xsnx" 18 none none none] =
      some [EToken.mk "Synthetix Network Token" snxDescription "SNX" "SNX" "0xsnx"
        18 none none none] ∧
    (contentOf constFormat "0xoracle" []
      [Token.mk "SNX" "Synthetix Network Token" "SNX" "0xsnx" 18 none none none]).isSome =
      true :=
  ⟨rfl, rfl, rfl⟩

/-- Claim C10: a token whose symbol is exactly SNX is assigned the hardcoded
description without consulting the synth registry, for any registry contents,
so an unmatched SNX token never raises a lookup failure. -/
theorem enrichToken_snx (synths : List Synth) (entry : Token)
    (h : entry.symbol = "SNX") :
    enrichToken synths entry =
      some ⟨entry.desc, snxDescription, entry.symbol, entry.asset, entry.address,
        entry.decimals, entry.index, entry.inverted, entry.feed⟩ := by
  rw [enrichToken, if_pos h]

/-- Witness for `enrichToken_snx`: an SNX token against an empty registry. -/
theorem enrichToken_snx_witness :
    (Token.mk "SNX" "Synthetix Network Token" "SNX" "0xsnx" 18 none none none).symbol =
      "SNX" ∧
    enrichToken [] (Token.mk "SNX" "Synthetix Network Token" "SNX" "0xsnx" 18 none none none) =
      some ⟨"Synthetix Network Token", snxDescription, "SNX", "SNX", "0xsnx", 18,
        none, none, none⟩ :=
  ⟨rfl, enrichToken_snx _ _ rfl⟩

/-- Witness for `addIndexParameters_spec` at a concrete inverted index record. -/
theorem addIndexParameters_spec_witness :
    addIndexParameters constFormat (some [⟨"COMP", "Compound", ⟨1, 0⟩⟩])
        (some ⟨⟨1000, 0⟩, ⟨1500, 0⟩, ⟨500, 0⟩⟩) "DEFI" "Synth DEFI Index" =
      indexHeader "DEFI" "Synth DEFI Index" :=
  (addIndexParameters_spec constFormat "DEFI" "Synth DEFI Index").2.2.1 _ _

/-- Witness for `contentDoc_sorted_by_name` at two concrete tokens. -/
theorem contentDoc_sorted_by_name_witness :
    List.Sorted nameLe (orderedTokens
      [EToken.mk "Synth Ether" "d1" "sETH" "ETH" "0xeth" 18 none none none,
       EToken.mk "Synth Bitcoin" "d2" "sBTC" "BTC" "0xbtc" 18 none none none]) :=
  (contentDoc_sorted_by_name constFormat "0xoracle"
    [EToken.mk "Synth Ether" "d1" "sETH" "ETH" "0xeth" 18 none none none,
     EToken.mk "Synth Bitcoin" "d2" "sBTC" "BTC" "0xbtc" 18 none none none]).2.1
